import Mathlib

/-!
Verification of the `checker` repository (a solution-checking harness for
competitive programming). The Rust sources are shallowly embedded below:
strings become `String`/`List Char`, the fallible iterator `unwrap` in
`check_lines` becomes an `Option` result (`none` models the panic), and
process/file I/O boundaries become explicit parameters.
-/

namespace Checker

/-! ## Embedding of the Rust `str` primitives used by the sources -/

/-- Unicode `White_Space` test, mirroring Rust `char::is_whitespace`. -/
def isRustWhitespace (c : Char) : Bool :=
  c.toNat = 0x09 || c.toNat = 0x0A || c.toNat = 0x0B || c.toNat = 0x0C ||
  c.toNat = 0x0D || c.toNat = 0x20 || c.toNat = 0x85 || c.toNat = 0xA0 ||
  c.toNat = 0x1680 || (0x2000 ≤ c.toNat && c.toNat ≤ 0x200A) ||
  c.toNat = 0x2028 || c.toNat = 0x2029 || c.toNat = 0x202F ||
  c.toNat = 0x205F || c.toNat = 0x3000

/-- Rust `str::trim_start` on a character list. -/
def trimStart (l : List Char) : List Char :=
  l.dropWhile isRustWhitespace

/-- Rust `str::trim_end` on a character list. -/
def trimEnd (l : List Char) : List Char :=
  (l.reverse.dropWhile isRustWhitespace).reverse

/-- Rust `str::trim` on a character list: leading and trailing whitespace
removed. -/
def trimChars (l : List Char) : List Char :=
  trimStart (trimEnd l)

/-- Rust `str::trim` on a `String`. -/
def rustTrim (s : String) : String :=
  ⟨trimChars s.data⟩

/-- Worker for `rustLines`: splits at `\n`, stripping a `\r` that
immediately precedes a `\n` (mirroring Rust, which strips `\r` only as part
of a `\r\n` terminator). The accumulator holds the current line reversed. -/
def rustLinesGo : List Char → List Char → List (List Char)
  | [], acc => if acc.isEmpty then [] else [acc.reverse]
  | c :: rest, acc =>
    if c = '\n' then
      (match acc with
        | '\r' :: acc' => acc'.reverse
        | _ => acc.reverse) :: rustLinesGo rest []
    else
      rustLinesGo rest (c :: acc)

/-- Rust `str::lines`: the final line terminator is optional, so a string
ending in `\n` yields no trailing empty line. -/
def rustLines (s : String) : List (List Char) :=
  rustLinesGo s.data []

/-- Worker for `rustSplitWhitespace`. -/
def rustSplitWhitespaceGo : List Char → List Char → List (List Char)
  | [], acc => if acc.isEmpty then [] else [acc.reverse]
  | c :: rest, acc =>
    if isRustWhitespace c then
      if acc.isEmpty then rustSplitWhitespaceGo rest []
      else acc.reverse :: rustSplitWhitespaceGo rest []
    else rustSplitWhitespaceGo rest (c :: acc)

/-- Rust `str::split_whitespace`: whitespace-separated tokens, with no
empty tokens produced. -/
def rustSplitWhitespace (s : String) : List (List Char) :=
  rustSplitWhitespaceGo s.data []

/-! ## Answer comparator (src/lib.rs) -/

/-- Embedding of `trim_filter_non_empty` (src/lib.rs:143): trim the line,
drop it when it becomes empty. -/
def trim_filter_non_empty (line : List Char) : Option (List Char) :=
  let t := trimChars line
  if t.isEmpty then none else some t

/-- The normalized line sequence both checks operate on:
`.lines().filter_map(trim_filter_non_empty)` in `check_line_count` and
`check_lines` (src/lib.rs:156-164, 179-185). -/
def normalizedLines (s : String) : List (List Char) :=
  (rustLines s).filterMap trim_filter_non_empty

/-- Embedding of `enum LineCountCheckResult` (src/lib.rs:38). -/
inductive LineCountCheckResult where
  | Correct : LineCountCheckResult
  | Incorrect (expected actual : Nat) : LineCountCheckResult
deriving DecidableEq

/-- Embedding of `check_line_count` (src/lib.rs:152). -/
def check_line_count (correct_answer actual_answer : String) :
    LineCountCheckResult :=
  let correct_line_count := (normalizedLines correct_answer).length
  let actual_line_count := (normalizedLines actual_answer).length
  if correct_line_count ≠ actual_line_count then
    .Incorrect correct_line_count actual_line_count
  else
    .Correct

/-- Embedding of `enum CheckResult` (src/lib.rs:53). -/
inductive CheckResult where
  | Correct : CheckResult
  | Incorrect (message : String) : CheckResult
deriving DecidableEq

/-- Terminal escape written by `termion::color::Bg(color::Red)`. -/
def bgRed : String := "\x1b[48;5;1m"

/-- Terminal escape written by `termion::color::Bg(color::Green)`. -/
def bgGreen : String := "\x1b[48;5;2m"

/-- Terminal escape written by `termion::color::Bg(color::Reset)`. -/
def bgReset : String := "\x1b[49m"

/-- The line-number field of a diff entry, for 0-based iteration index `i`
(src/lib.rs:189-194): two spaces of padding below 10, one below 100, then
the 1-based number and a space. -/
def lineNumberField (i : Nat) : String :=
  (if i + 1 < 10 then "  " else if i + 1 < 100 then " " else "") ++
    Nat.repr (i + 1) ++ " "

/-- One iteration of the `check_lines` loop body appends this text
(src/lib.rs:188-214), where `a` is the current actual line and `c` the
current correct line. -/
def entryString (i : Nat) (a c : List Char) : String :=
  lineNumberField i ++
    (if a = c then
      bgGreen ++ " " ++ String.mk a ++ " " ++ bgReset ++ "\n"
    else
      bgRed ++ " " ++ String.mk a ++ " " ++ bgReset ++ " => expected " ++
        bgGreen ++ " " ++ String.mk c ++ " " ++ bgReset ++ "\n")

/-- The loop of `check_lines` (src/lib.rs:182-215). The first list is the
correct-answer lines, consumed by `correct_lines.next().unwrap()`; the
second is the actual-answer lines driving the loop. `none` models the
panic of the `unwrap` when the correct lines run out first. -/
def checkLinesGo :
    List (List Char) → List (List Char) → Nat → Bool → String →
    Option (Bool × String)
  | _, [], _, correct, message => some (correct, message)
  | [], _ :: _, _, _, _ => none
  | c :: cs, a :: as, i, correct, message =>
    checkLinesGo cs as (i + 1) (correct && decide (a = c))
      (message ++ entryString i a c)

/-- Rust `String::pop`: remove the last character. -/
def popChar (s : String) : String :=
  ⟨s.data.dropLast⟩

/-- Embedding of `check_lines` (src/lib.rs:176): `none` models the panic of
the internal `unwrap`. In the incorrect case the trailing newline is popped
(src/lib.rs:221). -/
def check_lines (correct_answer actual_answer : String) :
    Option CheckResult :=
  match checkLinesGo (normalizedLines correct_answer)
      (normalizedLines actual_answer) 0 true "" with
  | none => none
  | some (true, _) => some .Correct
  | some (false, message) => some (.Incorrect (popChar message))

/-- The 1-based positions at which the `check_lines` loop emits a red
(mismatch) entry; the recursion and the `a = c` test mirror `checkLinesGo`
exactly, and `none` models the same `unwrap` panic. -/
def mismatchesGo :
    List (List Char) → List (List Char) → Nat → Option (List Nat)
  | _, [], _ => some []
  | [], _ :: _, _ => none
  | c :: cs, a :: as, i =>
    (mismatchesGo cs as (i + 1)).map
      (fun r => if a = c then r else (i + 1) :: r)

/-- The 1-based line numbers of the mismatch entries `check_lines` renders
for the given pair of texts. -/
def mismatchPositions (correct_answer actual_answer : String) :
    Option (List Nat) :=
  mismatchesGo (normalizedLines correct_answer)
    (normalizedLines actual_answer) 0

/-- The verdict printed by `run` (src/lib.rs:102-123): when the normalized
line counts differ the count mismatch is reported and `check_lines` is
never called; otherwise the `check_lines` verdict is reported. -/
inductive CompareResult where
  | Correct : CompareResult
  | Incorrect (message : String) : CompareResult
  | LineCountMismatch (expected actual : Nat) : CompareResult
deriving DecidableEq

/-- The comparison performed by `run` (src/lib.rs:102-123): first
`check_line_count`; only on `Correct` is `check_lines` run. `none` models
the (unreachable) `unwrap` panic inside `check_lines`. -/
def compareAnswers (correct_answer actual_answer : String) :
    Option CompareResult :=
  match check_line_count correct_answer actual_answer with
  | .Incorrect expected actual => some (.LineCountMismatch expected actual)
  | .Correct =>
    match check_lines correct_answer actual_answer with
    | none => none
    | some .Correct => some .Correct
    | some (.Incorrect m) => some (.Incorrect m)

/-! ## Process runner (src/lib.rs, src/main.rs) -/

/-- Embedding of `create_solution_command` (src/lib.rs:134): the command is
split on whitespace, the first token is the executable and the rest are its
arguments. `none` models the panic of `.next().unwrap()` when the command
contains no token. -/
def create_solution_command (command : String) :
    Option (String × List String) :=
  match rustSplitWhitespace command with
  | [] => none
  | t :: ts => some (String.mk t, ts.map String.mk)

/-- The guard at the top of `run` in src/main.rs:36-39: the run fails with
"Empty solution command provided" exactly when the command string is empty
(no trimming is applied before this test). -/
def mainRunGuard (solution_command : String) : Except String Unit :=
  if solution_command.isEmpty then .error "Empty solution command provided"
  else .ok ()

/-- Outcome of one invocation of `run` (src/lib.rs:58-126) after the
candidate process has produced its output. -/
inductive RunResult where
  | NonZeroExit (stderrText : String) : RunResult
  | StderrUtf8Error : RunResult
  | StdoutUtf8Error : RunResult
  | Finished (verdict : CompareResult) : RunResult
deriving DecidableEq

/-- Embedding of `run` (src/lib.rs:71-125) from the point where the
candidate process has terminated, on the path where no `--output-file` is
configured. `success` is `status.success()`; the `Option String` arguments
model `std::str::from_utf8` on the captured stderr/stdout bytes (`none` is
a UTF-8 decoding failure). On a non-zero exit the function returns the
error carrying the captured stderr before any comparison; on success the
trimmed correct answer is compared with the decoded stdout. The outer
`none` models the (unreachable) `unwrap` panic inside `check_lines`. -/
def run_after_spawn (success : Bool) (stderrUtf8 stdoutUtf8 : Option String)
    (correct_answer : String) : Option RunResult :=
  if success = false then
    match stderrUtf8 with
    | none => some .StderrUtf8Error
    | some stderrText => some (.NonZeroExit stderrText)
  else
    match stdoutUtf8 with
    | none => some .StdoutUtf8Error
    | some out => (compareAnswers (rustTrim correct_answer) out).map .Finished

/-! ## Test orchestrator (src/main.rs) -/

/-- The per-test loop of `run` in src/main.rs:43-58: every test is run
exactly once, in suite order, with a 1-based index printed in its header;
a failing `run_test` is caught by the `match` and reported in place, so it
never aborts the loop. `runTest` abstracts `checker::run_test` (whose body
is outside this crate's comparator logic); `ε` is its error type. -/
def runSuite {α ε : Type} (runTest : α → Except ε Unit) (tests : List α) :
    List (Nat × Except ε Unit) :=
  tests.enum.map (fun p => (p.1 + 1, runTest p.2))

/-! ## Suite codec

Modelled from the spec: `checker::Test`, its `Display` serialization and
`checker::parse_tests` are referenced by src/main.rs but their definitions
are not part of the given sources, so the codec below follows the words of
spec section 4.1. -/

/-- Modelled from the spec: a `Test` is an ordered pair of text blocks
`input` and `answer` (the missing `checker::Test` struct used by
src/main.rs:88-91). -/
structure Test where
  input : String
  answer : String
deriving DecidableEq

/-- Modelled from the spec: the parse error `MalformedSuite`. -/
inductive SuiteError where
  | MalformedSuite : SuiteError
deriving DecidableEq

instance {ε α : Type} [DecidableEq ε] [DecidableEq α] :
    DecidableEq (Except ε α) := fun a b =>
  match a, b with
  | .ok x, .ok y =>
    if h : x = y then isTrue (by rw [h]) else
      isFalse (by intro hc; cases hc; exact h rfl)
  | .error x, .error y =>
    if h : x = y then isTrue (by rw [h]) else
      isFalse (by intro hc; cases hc; exact h rfl)
  | .ok _, .error _ => isFalse (by intro hc; cases hc)
  | .error _, .ok _ => isFalse (by intro hc; cases hc)

/-- The record marker of the suite format, followed by a newline. -/
def markerTestData : List Char := "[test]\n".data

/-- The input header of a record, followed by a newline. -/
def markerInputData : List Char := "[input]\n".data

/-- The answer header of a record, followed by a newline. -/
def markerAnswerData : List Char := "[answer]\n".data

/-- Appends a newline unless the block already ends with one
(the spec's `<newline-if-missing>`). -/
def ensureTrailingNewline (l : List Char) : List Char :=
  if l.getLast? = some '\n' then l else l ++ ['\n']

/-- Modelled from the spec: serialization of a `Test` as
`[test]\n[input]\n<input><newline-if-missing>[answer]\n<answer><newline-if-missing>`;
a pure, total function (the missing `Display` impl of `checker::Test`). -/
def serializeTest (t : Test) : String :=
  ⟨markerTestData ++ markerInputData ++ ensureTrailingNewline t.input.data ++
    markerAnswerData ++ ensureTrailingNewline t.answer.data⟩

/-- Splits at the first occurrence of `sep`, returning the text before and
after it, or `none` when `sep` does not occur. -/
def breakOnSeq (sep : List Char) : List Char → Option (List Char × List Char)
  | [] => if sep.isEmpty then some ([], []) else none
  | c :: rest =>
    if sep.isPrefixOf (c :: rest) then some ([], (c :: rest).drop sep.length)
    else (breakOnSeq sep rest).map (fun p => (c :: p.1, p.2))

/-- Worker for `splitOnSeq`; the fuel is an upper bound on the number of
steps, each of which consumes at least one character. -/
def splitOnSeqGo (sep : List Char) : Nat → List Char → List Char →
    List (List Char)
  | 0, l, acc => [acc.reverse ++ l]
  | fuel + 1, l, acc =>
    if sep.isPrefixOf l then
      acc.reverse :: splitOnSeqGo sep fuel (l.drop sep.length) []
    else
      match l with
      | [] => [acc.reverse]
      | c :: rest => splitOnSeqGo sep fuel rest (c :: acc)

/-- Splits `l` at every (leftmost, non-overlapping) occurrence of `sep`,
like Rust `str::split` on a string pattern. -/
def splitOnSeq (sep l : List Char) : List (List Char) :=
  splitOnSeqGo sep (l.length + 1) l []

/-- Whether `sep` occurs as a contiguous subsequence of `l`. -/
def containsSeq (sep : List Char) : List Char → Bool
  | [] => sep.isEmpty
  | c :: rest => sep.isPrefixOf (c :: rest) || containsSeq sep rest

/-- Modelled from the spec: parsing one record body. It must begin with
`[input]\n` and contain an `[answer]\n` marker later; the text before the
marker is the input, the text after it the answer, both trimmed of
leading/trailing whitespace after extraction. Otherwise the record is
malformed. -/
def parseRecord (body : List Char) : Except SuiteError Test :=
  if markerInputData.isPrefixOf body then
    match breakOnSeq markerAnswerData (body.drop markerInputData.length) with
    | some (inp, ans) => .ok ⟨⟨trimChars inp⟩, ⟨trimChars ans⟩⟩
    | none => .error .MalformedSuite
  else .error .MalformedSuite

/-- Parses every record body in order, failing on the first malformed one. -/
def parseRecords : List (List Char) → Except SuiteError (List Test)
  | [] => .ok []
  | r :: rs => do
    let t ← parseRecord r
    let ts ← parseRecords rs
    .ok (t :: ts)

/-- Modelled from the spec: `parse_tests` (the missing `checker::parse_tests`
used by src/main.rs:41) splits the source strictly on the `[test]\n` marker,
discards empty split segments (the spec's empty leading/trailing segments)
and parses each remaining segment as a record. -/
def parse_tests (source : String) : Except SuiteError (List Test) :=
  parseRecords ((splitOnSeq markerTestData source.data).filter
    (fun s => !s.isEmpty))

/-! ## Spec-side rendering of line numbers (for the alignment claim) -/

/-- Written from the spec's words, for comparison with `lineNumberField`:
"line numbers in the rendered diff are 1-based and right-padded/aligned to
the width of the largest line number". `lineNo` and `maxLineNo` are the
1-based number of the entry and the largest 1-based line number of the
report. -/
def specAlignedNumberField (lineNo maxLineNo : Nat) : String :=
  ⟨List.replicate ((Nat.repr maxLineNo).length - (Nat.repr lineNo).length)
    ' '⟩ ++ Nat.repr lineNo ++ " "

/-! ## Lemmas about the comparator -/

theorem mismatchesGo_self (l : List (List Char)) (i : Nat) :
    mismatchesGo l l i = some [] := by
  induction l generalizing i with
  | nil => rfl
  | cons c cs ih => simp [mismatchesGo, ih]

theorem checkLinesGo_fst (u v : List (List Char)) (i : Nat) (b : Bool)
    (msg : String) :
    (checkLinesGo u v i b msg).map Prod.fst =
      (mismatchesGo u v i).map (fun r => b && r.isEmpty) := by
  induction v generalizing u i b msg with
  | nil => cases u <;> simp [checkLinesGo, mismatchesGo]
  | cons a as ih =>
    cases u with
    | nil => simp [checkLinesGo, mismatchesGo]
    | cons c cs =>
      simp only [checkLinesGo, mismatchesGo, ih, Option.map_map]
      cases hm : mismatchesGo cs as (i + 1) with
      | none => simp
      | some r =>
        by_cases hac : a = c
        · simp [hac]
        · simp [hac]

theorem mismatchesGo_isSome (u v : List (List Char)) (i : Nat)
    (h : u.length = v.length) : (mismatchesGo u v i).isSome = true := by
  induction v generalizing u i with
  | nil => cases u <;> simp [mismatchesGo]
  | cons a as ih =>
    cases u with
    | nil => simp at h
    | cons c cs =>
      simp only [mismatchesGo]
      have := ih cs (i + 1) (by simpa using h)
      cases hm : mismatchesGo cs as (i + 1) with
      | none => rw [hm] at this; simp at this
      | some r => simp

theorem check_line_count_eq_correct_iff (c a : String) :
    check_line_count c a = .Correct ↔
      (normalizedLines c).length = (normalizedLines a).length := by
  unfold check_line_count
  by_cases h : (normalizedLines c).length = (normalizedLines a).length
  · simp [h]
  · simp [h]

/-! ## Claim theorems about the comparator -/

/-- C2: comparing any text against itself yields `Correct`: the printed
verdict of `run` is `Correct`, `check_line_count` returns `Correct` and
`check_lines` returns `Correct` (no panic). -/
theorem compare_self (x : String) :
    compareAnswers x x = some .Correct ∧
      check_line_count x x = .Correct ∧ check_lines x x = some .Correct := by
  have hclc : check_line_count x x = .Correct :=
    (check_line_count_eq_correct_iff x x).mpr rfl
  have hfst := checkLinesGo_fst (normalizedLines x) (normalizedLines x) 0
    true ""
  rw [mismatchesGo_self] at hfst
  have hcl : check_lines x x = some .Correct := by
    rcases hg : checkLinesGo (normalizedLines x) (normalizedLines x) 0
        true "" with _ | ⟨b, m⟩
    · rw [hg] at hfst; simp at hfst
    · rw [hg] at hfst
      simp at hfst
      subst hfst
      simp [check_lines, hg]
  exact ⟨by simp [compareAnswers, hclc, hcl], hclc, hcl⟩

/-- C3: the comparison verdict depends only on the normalized (per-line
trimmed, blank-dropped) line sequences of the two texts, and in particular
`compare("1\n2", "\t1 \n  2  \n\n\n")` is `Correct`. -/
theorem compare_whitespace_insensitive :
    (∀ x x' y y' : String, normalizedLines x = normalizedLines x' →
      normalizedLines y = normalizedLines y' →
      compareAnswers x y = compareAnswers x' y') ∧
    compareAnswers "1\n2" "\t1 \n  2  \n\n\n" = some .Correct := by
  constructor
  · intro x x' y y' h1 h2
    unfold compareAnswers check_line_count check_lines
    rw [h1, h2]
  · decide

/-- Witness for C3 at concrete inputs: normalizing `"\t1 \n  2  \n\n\n"`
gives the lines of `"1\n2"`, so the two comparisons agree. -/
theorem compare_whitespace_insensitive_witness :
    normalizedLines "\t1 \n  2  \n\n\n" = normalizedLines "1\n2" ∧
    compareAnswers "1\n2" "\t1 \n  2  \n\n\n" =
      compareAnswers "1\n2" "1\n2" :=
  ⟨by decide, compare_whitespace_insensitive.1 "1\n2" "1\n2"
    "\t1 \n  2  \n\n\n" "1\n2" rfl (by decide)⟩

/-- C1 (counterexample): on `("1\n2", "1\n2\n3")` the code reports the raw
line-count mismatch (2 vs 3) and never produces a per-line diff; the
per-line pass, had it been run, would have hit the `unwrap` panic
(`check_lines` is `none`), not an empty-string placeholder. -/
theorem compare_line_count_cex :
    compareAnswers "1\n2" "1\n2\n3" = some (.LineCountMismatch 2 3) ∧
      check_lines "1\n2" "1\n2\n3" = none := by decide

/-- C1 (amended): whenever the normalized line counts differ, `run` prints
the count mismatch and skips the per-line comparison entirely. -/
theorem compare_reports_line_count_mismatch (x y : String)
    (h : (normalizedLines x).length ≠ (normalizedLines y).length) :
    compareAnswers x y =
      some (.LineCountMismatch (normalizedLines x).length
        (normalizedLines y).length) := by
  unfold compareAnswers check_line_count
  simp [h]

/-- Witness for the amended C1 at `("1\n2", "1\n2\n3")`. -/
theorem compare_reports_line_count_mismatch_witness :
    (normalizedLines "1\n2").length ≠ (normalizedLines "1\n2\n3").length ∧
    compareAnswers "1\n2" "1\n2\n3" =
      some (.LineCountMismatch (normalizedLines "1\n2").length
        (normalizedLines "1\n2\n3").length) :=
  ⟨by decide, compare_reports_line_count_mismatch _ _ (by decide)⟩

theorem mismatchesGo_one_diff (u : List (List Char)) :
    ∀ (v : List (List Char)) (k i : Nat), u.length = v.length →
      u.get? k ≠ v.get? k →
      (∀ j, j ≠ k → u.get? j = v.get? j) →
      mismatchesGo u v i = some [i + k + 1] := by
  induction u with
  | nil =>
    intro v k i hlen hdiff _
    cases v with
    | nil => simp at hdiff
    | cons a as => simp at hlen
  | cons c cs ih =>
    intro v k i hlen hdiff hsame
    cases v with
    | nil => simp at hlen
    | cons a as =>
      cases k with
      | zero =>
        have hca : c ≠ a := by simpa using hdiff
        have htails : cs = as := by
          apply List.ext_get?
          intro n
          simpa using hsame (n + 1) (by simp)
        subst htails
        have hac : ¬(a = c) := fun h => hca h.symm
        simp [mismatchesGo, mismatchesGo_self, hac]
      | succ k' =>
        have hac : c = a := by simpa using hsame 0 (by simp)
        have hrec := ih as k' (i + 1) (by simpa using hlen)
          (by simpa using hdiff)
          (fun j hj => by
            simpa using hsame (j + 1) (by simpa using hj))
        have harith : i + 1 + k' + 1 = i + (k' + 1) + 1 := by omega
        simp [mismatchesGo, hrec, hac.symm, harith]

/-- C4: when the normalized line sequences have equal length and differ at
exactly one position `k` (0-based), the verdict is `Incorrect` and the
rendered diff has exactly one mismatch entry, at 1-based line `k + 1`. -/
theorem compare_single_mismatch (x y : String) (k : Nat)
    (hlen : (normalizedLines x).length = (normalizedLines y).length)
    (hdiff : (normalizedLines x).get? k ≠ (normalizedLines y).get? k)
    (hsame : ∀ j, j ≠ k →
      (normalizedLines x).get? j = (normalizedLines y).get? j) :
    (∃ m, compareAnswers x y = some (.Incorrect m)) ∧
      mismatchPositions x y = some [k + 1] := by
  have hpos : mismatchesGo (normalizedLines x) (normalizedLines y) 0 =
      some [0 + k + 1] :=
    mismatchesGo_one_diff _ _ k 0 hlen hdiff hsame
  rw [Nat.zero_add] at hpos
  have hfst := checkLinesGo_fst (normalizedLines x) (normalizedLines y) 0
    true ""
  rw [hpos] at hfst
  have hclc : check_line_count x y = .Correct :=
    (check_line_count_eq_correct_iff x y).mpr hlen
  refine ⟨?_, hpos⟩
  rcases hg : checkLinesGo (normalizedLines x) (normalizedLines y) 0
      true "" with _ | ⟨b, m⟩
  · rw [hg] at hfst; simp at hfst
  · rw [hg] at hfst
    simp at hfst
    subst hfst
    exact ⟨popChar m, by simp [compareAnswers, hclc, check_lines, hg]⟩

/-- Witness for C4 at `("1\n2", "1\n55")`: the single differing position is
`k = 1`, so the diff has exactly one mismatch entry, at line 2. -/
theorem compare_single_mismatch_witness :
    (normalizedLines "1\n2").length = (normalizedLines "1\n55").length ∧
    (normalizedLines "1\n2").get? 1 ≠ (normalizedLines "1\n55").get? 1 ∧
    ((∃ m, compareAnswers "1\n2" "1\n55" = some (.Incorrect m)) ∧
      mismatchPositions "1\n2" "1\n55" = some [2]) :=
  ⟨by decide, by decide,
    compare_single_mismatch "1\n2" "1\n55" 1 (by decide) (by decide)
      (fun j hj => by
        match j with
        | 0 => rfl
        | 1 => exact absurd rfl hj
        | j + 2 => rfl)⟩

/-- C10: the `unwrap` in `check_lines` never panics when the normalized
line counts agree (the precondition established by `check_line_count`
returning `Correct`), and `run`, which consults `check_line_count` first,
therefore never panics in its comparison phase. -/
theorem check_lines_no_panic :
    (∀ c a, check_line_count c a = .Correct → check_lines c a ≠ none) ∧
      ∀ c a, compareAnswers c a ≠ none := by
  have key : ∀ c a, check_line_count c a = .Correct →
      check_lines c a ≠ none := by
    intro c a h hnone
    have hlen := (check_line_count_eq_correct_iff c a).mp h
    have hsome := mismatchesGo_isSome (normalizedLines c)
      (normalizedLines a) 0 hlen
    have hfst := checkLinesGo_fst (normalizedLines c) (normalizedLines a) 0
      true ""
    rcases hg : checkLinesGo (normalizedLines c) (normalizedLines a) 0
        true "" with _ | ⟨b, m⟩
    · rw [hg] at hfst
      cases hm : mismatchesGo (normalizedLines c) (normalizedLines a) 0 with
      | none => rw [hm] at hsome; simp at hsome
      | some r => rw [hm] at hfst; simp at hfst
    · rw [check_lines, hg] at hnone
      cases b <;> simp at hnone
  refine ⟨key, ?_⟩
  intro c a hnone
  unfold compareAnswers at hnone
  cases hclc : check_line_count c a with
  | Incorrect e a' => rw [hclc] at hnone; simp at hnone
  | Correct =>
    rw [hclc] at hnone
    cases hcl : check_lines c a with
    | none => exact key c a hclc hcl
    | some r =>
      rw [hcl] at hnone
      cases r <;> simp at hnone

/-- Witness for C10 at `("a\nb", "a\nc")`: the counts agree and
`check_lines` does not panic. -/
theorem check_lines_no_panic_witness :
    check_line_count "a\nb" "a\nc" = .Correct ∧
      check_lines "a\nb" "a\nc" ≠ none :=
  ⟨by decide, check_lines_no_panic.1 "a\nb" "a\nc" (by decide)⟩

/-! ## Claim theorems about the process runner and orchestrator -/

/-- C5 (counterexample): a whitespace-only command trims to empty, yet the
guard in src/main.rs does not fail (it tests `is_empty` before trimming)
and `create_solution_command` hits its `unwrap` panic (`none`) instead of
reporting an empty-command error. -/
theorem empty_command_cex :
    rustTrim " " = "" ∧ mainRunGuard " " = .ok () ∧
      create_solution_command " " = none := by decide

/-- C5 (amended): the guard rejects exactly the literally empty command
string; for a command with at least one whitespace-separated token the
first token becomes the executable and the remaining tokens its arguments,
and for a command with no token (whitespace-only) `create_solution_command`
panics on its `unwrap`. -/
theorem command_splitting :
    (∀ cmd : String,
      mainRunGuard cmd = .error "Empty solution command provided" ↔
        cmd = "") ∧
    (∀ (cmd : String) (t : List Char) (ts : List (List Char)),
      rustSplitWhitespace cmd = t :: ts →
      create_solution_command cmd = some (String.mk t, ts.map String.mk)) ∧
    (∀ cmd : String, rustSplitWhitespace cmd = [] →
      create_solution_command cmd = none) := by
  refine ⟨?_, ?_, ?_⟩
  · intro cmd
    unfold mainRunGuard
    by_cases h : cmd.isEmpty
    · rw [if_pos h]
      simp [(String.isEmpty_iff cmd).mp h]
    · rw [if_neg h]
      constructor
      · intro hc
        exact absurd hc (by simp)
      · intro hc
        exact absurd ((String.isEmpty_iff cmd).mpr hc) h
  · intro cmd t ts h
    unfold create_solution_command
    rw [h]
  · intro cmd h
    unfold create_solution_command
    rw [h]

/-- Witness for the amended C5: the empty command is rejected, and
`"x y"` splits into executable `"x"` with argument list `["y"]`. -/
theorem command_splitting_witness :
    mainRunGuard "" = .error "Empty solution command provided" ∧
    rustSplitWhitespace "x y" = [['x'], ['y']] ∧
    create_solution_command "x y" = some ("x", ["y"]) :=
  ⟨(command_splitting.1 "").mpr rfl, by decide,
    command_splitting.2.1 "x y" ['x'] [['y']] (by decide)⟩

/-- C6: when the candidate terminates unsuccessfully, `run` returns the
error carrying the captured stderr text, independently of the candidate's
stdout and of the correct answer (so no comparison is performed); when it
terminates successfully, `run` proceeds to the comparison of the trimmed
correct answer with the decoded stdout. -/
theorem nonzero_exit_reports_stderr :
    (∀ (s : String) (out : Option String) (c : String),
      run_after_spawn false (some s) out c = some (.NonZeroExit s)) ∧
    (∀ (e : Option String) (out c : String),
      run_after_spawn true e (some out) c =
        (compareAnswers (rustTrim c) out).map .Finished) := by
  exact ⟨fun s out c => rfl, fun e out c => rfl⟩

/-- C7: the orchestrator loop runs every test exactly once, in suite
order, with 1-based indices; the report of test `i` is a function of test
`i` alone, so an error on one test (caught by the `match` in
src/main.rs:45-57) never prevents a later test from reporting its own
outcome. The final conjunct shows a 3-test suite in which test 2 fails
with a spawn error while tests 1 and 3 still report their outcomes. -/
theorem runSuite_isolates_failures :
    (∀ (α ε : Type) (runTest : α → Except ε Unit) (tests : List α),
      (runSuite runTest tests).length = tests.length ∧
      ∀ i, (runSuite runTest tests).get? i =
        (tests.get? i).map (fun t => (i + 1, runTest t))) ∧
    runSuite (fun n : Nat =>
        if n = 2 then Except.error "spawn error" else Except.ok ())
      [1, 2, 3] =
      [(1, Except.ok ()), (2, Except.error "spawn error"),
        (3, Except.ok ())] := by
  refine ⟨fun α ε f ts => ⟨by simp [runSuite], fun i => ?_⟩, by decide⟩
  simp only [runSuite, List.get?_eq_getElem?, List.getElem?_map,
    List.getElem?_enum, Option.map_map]
  rfl

/-- C8 (counterexample): in the two-line report for
`("1\n2", "3\n4")` the largest line number is 2, one digit wide, yet the
rendered number fields are three characters wide (`"  1 "`, `"  2 "`),
not aligned to the width of the largest line number as the spec's wording
(`specAlignedNumberField`) would give. -/
theorem diff_alignment_cex :
    check_lines "1\n2" "3\n4" =
      some (.Incorrect
        ("  1 \x1b[48;5;1m 3 \x1b[49m => expected \x1b[48;5;2m 1 \x1b[49m\n  2 \x1b[48;5;1m 4 \x1b[49m => expected \x1b[48;5;2m 2 \x1b[49m")) ∧
    specAlignedNumberField 1 2 = "1 " ∧
    specAlignedNumberField 2 2 = "2 " := by decide

set_option maxRecDepth 4000 in
/-- C8 (amended): line numbers are 1-based and padded to a fixed width of
3 characters (plus a trailing space), independent of the largest line
number of the report: every rendered diff entry for a line number up to
999 begins with a 4-character number field, so columns align for reports
of at most 999 lines. -/
theorem line_number_fixed_width (i : Nat) (a c : List Char) (h : i < 999) :
    (entryString i a c).data.take 4 = (lineNumberField i).data ∧
      (lineNumberField i).length = 4 := by
  have key : ∀ j, j < 999 → (lineNumberField j).length = 4 := by decide
  refine ⟨?_, key i h⟩
  unfold entryString
  rw [show ((lineNumberField i ++
      (if a = c then
        bgGreen ++ " " ++ String.mk a ++ " " ++ bgReset ++ "\n"
      else
        bgRed ++ " " ++ String.mk a ++ " " ++ bgReset ++ " => expected " ++
          bgGreen ++ " " ++ String.mk c ++ " " ++ bgReset ++ "\n")).data) =
      (lineNumberField i).data ++
      (if a = c then
        bgGreen ++ " " ++ String.mk a ++ " " ++ bgReset ++ "\n"
      else
        bgRed ++ " " ++ String.mk a ++ " " ++ bgReset ++ " => expected " ++
          bgGreen ++ " " ++ String.mk c ++ " " ++ bgReset ++ "\n").data
    from rfl]
  rw [show (4 : Nat) = (lineNumberField i).data.length from (key i h).symm]
  exact List.take_left _ _

/-- Witness for the amended C8 at the first entry of a report. -/
theorem line_number_fixed_width_witness :
    (0 : Nat) < 999 ∧
      ((entryString 0 ['3'] ['1']).data.take 4 = (lineNumberField 0).data ∧
        (lineNumberField 0).length = 4) :=
  ⟨by decide, line_number_fixed_width 0 ['3'] ['1'] (by decide)⟩

/-! ## Lemmas about trimming -/

theorem length_dropWhile_le (p : Char → Bool) (l : List Char) :
    (l.dropWhile p).length ≤ l.length := by
  induction l with
  | nil => simp [List.dropWhile]
  | cons c t ih =>
    by_cases h : p c
    · simp only [List.dropWhile, h]
      simp only [List.length_cons]
      omega
    · simp [List.dropWhile, h]

theorem dropWhile_eq_self_of_length (p : Char → Bool) (l : List Char)
    (h : (l.dropWhile p).length = l.length) : l.dropWhile p = l := by
  induction l with
  | nil => simp [List.dropWhile]
  | cons c t ih =>
    by_cases hc : p c
    · exfalso
      have := length_dropWhile_le p t
      simp [List.dropWhile, hc] at h
      omega
    · simp [List.dropWhile, hc]

theorem trimEnd_length_le (l : List Char) : (trimEnd l).length ≤ l.length := by
  have := length_dropWhile_le isRustWhitespace l.reverse
  simpa [trimEnd] using this

theorem trimStart_length_le (l : List Char) :
    (trimStart l).length ≤ l.length :=
  length_dropWhile_le _ _

theorem trimmed_parts (l : List Char) (h : trimChars l = l) :
    trimStart l = l ∧ trimEnd l = l := by
  have h1 : (trimStart (trimEnd l)).length ≤ (trimEnd l).length :=
    trimStart_length_le _
  have h2 : (trimEnd l).length ≤ l.length := trimEnd_length_le l
  have h0 : (trimChars l).length = l.length := by rw [h]
  unfold trimChars at h0
  have hEndLen : (trimEnd l).length = l.length := by omega
  have hEnd : trimEnd l = l := by
    have hrev : (l.reverse.dropWhile isRustWhitespace).length =
        l.reverse.length := by
      simpa [trimEnd] using hEndLen
    have := dropWhile_eq_self_of_length isRustWhitespace l.reverse hrev
    unfold trimEnd
    rw [this, List.reverse_reverse]
  have hStart : trimStart l = l := by
    have := h
    unfold trimChars at this
    rw [hEnd] at this
    exact this
  exact ⟨hStart, hEnd⟩

theorem trimEnd_append_ws (l : List Char) (c : Char)
    (hc : isRustWhitespace c = true) : trimEnd (l ++ [c]) = trimEnd l := by
  unfold trimEnd
  rw [List.reverse_append]
  simp [List.dropWhile, hc]

theorem trimChars_append_newline (l : List Char) (h : trimChars l = l) :
    trimChars (l ++ ['\n']) = l := by
  unfold trimChars
  rw [trimEnd_append_ws l '\n' (by decide), (trimmed_parts l h).2]
  exact (trimmed_parts l h).1

theorem getLast_ne_newline (l : List Char) (h : trimChars l = l)
    (hne : l ≠ []) : l.getLast? ≠ some '\n' := by
  intro hlast
  have hEnd := (trimmed_parts l h).2
  have hgl : l.getLast hne = '\n' := by
    have hg := List.getLast?_eq_getLast l hne
    rw [hlast] at hg
    exact (Option.some_inj.mp hg).symm
  have hl : l.dropLast ++ ['\n'] = l := by
    rw [← hgl]
    exact List.dropLast_concat_getLast hne
  have hEq : trimEnd l = trimEnd l.dropLast := by
    conv_lhs => rw [← hl]
    exact trimEnd_append_ws _ _ (by decide)
  have hlen1 : (trimEnd l.dropLast).length ≤ l.dropLast.length :=
    trimEnd_length_le _
  have hlen2 : l.dropLast.length + 1 = l.length := by
    conv_rhs => rw [← hl]
    simp
  have hlen3 : l.length = (trimEnd l.dropLast).length := by
    rw [← hEq, hEnd]
  omega

theorem ensureTrailingNewline_eq (l : List Char) (h : trimChars l = l)
    (hne : l ≠ []) : ensureTrailingNewline l = l ++ ['\n'] := by
  unfold ensureTrailingNewline
  rw [if_neg (getLast_ne_newline l h hne)]

/-! ## Lemmas about marker scanning -/

theorem isPrefixOf_false_of_head_ne (sep : List Char) (s0 : Char)
    (sepTail : List Char) (hsep : sep = s0 :: sepTail) (c : Char)
    (hc : c ≠ s0) (l : List Char) : sep.isPrefixOf (c :: l) = false := by
  subst hsep
  show (s0 == c && sepTail.isPrefixOf l) = false
  rw [beq_false_of_ne (Ne.symm hc)]
  simp

theorem isPrefixOf_false_of_second_ne (a1 a2 b2 : Char) (h : a2 ≠ b2)
    (as bs : List Char) (b1 : Char) :
    (a1 :: a2 :: as).isPrefixOf (b1 :: b2 :: bs) = false := by
  show (a1 == b1 && (a2 == b2 && as.isPrefixOf bs)) = false
  rw [beq_false_of_ne h]
  simp

theorem containsSeq_append_clean (sep : List Char) (s0 : Char)
    (sepTail : List Char) (hsep : sep = s0 :: sepTail) (b : List Char) :
    ∀ a : List Char, (∀ c ∈ a, c ≠ s0) →
      containsSeq sep (a ++ b) = containsSeq sep b := by
  intro a
  induction a with
  | nil => intro _; rfl
  | cons c t ih =>
    intro ha
    have hc : c ≠ s0 := ha c (by simp)
    show (sep.isPrefixOf (c :: (t ++ b)) || containsSeq sep (t ++ b)) = _
    rw [isPrefixOf_false_of_head_ne sep s0 sepTail hsep c hc,
      ih (fun x hx => ha x (by simp [hx]))]
    simp

theorem breakOnSeq_at_marker (sep : List Char) (s0 : Char)
    (sepTail : List Char) (hsep : sep = s0 :: sepTail) (b : List Char) :
    ∀ a : List Char, (∀ c ∈ a, c ≠ s0) →
      breakOnSeq sep (a ++ sep ++ b) = some (a, b) := by
  intro a
  induction a with
  | nil =>
    intro _
    subst hsep
    have hpre : (s0 :: sepTail).isPrefixOf (s0 :: (sepTail ++ b)) = true := by
      rw [show s0 :: (sepTail ++ b) = (s0 :: sepTail) ++ b from rfl]
      simp [ List.isPrefixOf_iff_prefix]
    show breakOnSeq (s0 :: sepTail) (s0 :: (sepTail ++ b)) = some ([], b)
    simp only [breakOnSeq, List.append_eq, hpre, if_true]
    rw [show s0 :: (sepTail ++ b) = (s0 :: sepTail) ++ b from rfl,
      List.drop_left]
  | cons c t ih =>
    intro ha
    have hc : c ≠ s0 := ha c (by simp)
    have hrest := ih (fun x hx => ha x (by simp [hx]))
    show breakOnSeq sep (c :: (t ++ sep ++ b)) = some (c :: t, b)
    simp only [breakOnSeq, List.append_eq,
      isPrefixOf_false_of_head_ne sep s0 sepTail hsep c hc, Bool.false_eq_true,
      if_false, hrest]
    rfl

theorem splitOnSeqGo_no_occur (sep : List Char) (hsep : sep ≠ []) :
    ∀ (fuel : Nat) (l acc : List Char), l.length < fuel →
      containsSeq sep l = false →
      splitOnSeqGo sep fuel l acc = [acc.reverse ++ l] := by
  intro fuel
  induction fuel with
  | zero => intro l acc h _; omega
  | succ f ih =>
    intro l acc h hcon
    cases l with
    | nil =>
      have hp : sep.isPrefixOf [] = false := by
        cases sep with
        | nil => exact absurd rfl hsep
        | cons s ss => rfl
      simp [splitOnSeqGo, hp]
    | cons c rest =>
      have hcon' : (sep.isPrefixOf (c :: rest) || containsSeq sep rest) =
          false := hcon
      rw [Bool.or_eq_false_iff] at hcon'
      obtain ⟨hp, hrest⟩ := hcon'
      simp only [splitOnSeqGo, hp, Bool.false_eq_true, if_false]
      rw [ih rest (c :: acc) (by simp at h ⊢; omega) hrest]
      simp

theorem splitOnSeq_marker_head (sep : List Char) (s0 : Char)
    (ss : List Char) (hsep : sep = s0 :: ss) (B : List Char)
    (hcon : containsSeq sep B = false) :
    splitOnSeq sep (sep ++ B) = [[], B] := by
  have hne : sep ≠ [] := by rw [hsep]; simp
  have hpre : sep.isPrefixOf (sep ++ B) = true := by
    simp [ List.isPrefixOf_iff_prefix]
  unfold splitOnSeq
  rw [show (sep ++ B).length + 1 = (sep.length + B.length) + 1 by simp]
  simp only [splitOnSeqGo, hpre, if_true, List.drop_left]
  rw [splitOnSeqGo_no_occur sep hne (sep.length + B.length) B []
    (by rw [hsep]; simp) hcon]
  rfl

theorem containsSeq_mt_body (inp ans : List Char)
    (hi : ∀ c ∈ inp, c ≠ '[') (ha : ∀ c ∈ ans, c ≠ '[') :
    containsSeq markerTestData
      (markerInputData ++ ((inp ++ ['\n']) ++
        (markerAnswerData ++ (ans ++ ['\n'])))) = false := by
  have hmt : markerTestData = '[' :: "test]\n".data := rfl
  have hclean1 : ∀ c ∈ ("input]\n".data : List Char), c ≠ '[' := by decide
  have hclean2 : ∀ c ∈ ("answer]\n".data : List Char), c ≠ '[' := by decide
  have hinp : ∀ c ∈ inp ++ ['\n'], c ≠ '[' := by
    intro c hc
    rcases List.mem_append.mp hc with h | h
    · exact hi c h
    · simp at h; subst h; decide
  have hans : ∀ c ∈ ans ++ ['\n'], c ≠ '[' := by
    intro c hc
    rcases List.mem_append.mp hc with h | h
    · exact ha c h
    · simp at h; subst h; decide
  have step1 : containsSeq markerTestData
      (markerInputData ++ ((inp ++ ['\n']) ++
        (markerAnswerData ++ (ans ++ ['\n'])))) =
      containsSeq markerTestData
        ("input]\n".data ++ ((inp ++ ['\n']) ++
          (markerAnswerData ++ (ans ++ ['\n'])))) := by
    have hpre : markerTestData.isPrefixOf
        ('[' :: ("input]\n".data ++ ((inp ++ ['\n']) ++
          (markerAnswerData ++ (ans ++ ['\n']))))) = false := by
      exact isPrefixOf_false_of_second_ne '[' 't' 'i' (by decide) _ _ '['
    show (markerTestData.isPrefixOf ('[' :: ("input]\n".data ++ _)) ||
        containsSeq markerTestData ("input]\n".data ++ _)) = _
    rw [hpre]
    simp
  rw [step1,
    containsSeq_append_clean markerTestData '[' "test]\n".data hmt _
      "input]\n".data hclean1,
    containsSeq_append_clean markerTestData '[' "test]\n".data hmt _
      (inp ++ ['\n']) hinp]
  have step2 : containsSeq markerTestData
      (markerAnswerData ++ (ans ++ ['\n'])) =
      containsSeq markerTestData ("answer]\n".data ++ (ans ++ ['\n'])) := by
    have hpre : markerTestData.isPrefixOf
        ('[' :: ("answer]\n".data ++ (ans ++ ['\n']))) = false := by
      exact isPrefixOf_false_of_second_ne '[' 't' 'a' (by decide) _ _ '['
    show (markerTestData.isPrefixOf ('[' :: ("answer]\n".data ++ _)) ||
        containsSeq markerTestData ("answer]\n".data ++ _)) = _
    rw [hpre]
    simp
  rw [step2,
    containsSeq_append_clean markerTestData '[' "test]\n".data hmt _
      "answer]\n".data hclean2]
  have := containsSeq_append_clean markerTestData '[' "test]\n".data hmt
    [] (ans ++ ['\n']) hans
  rw [List.append_nil] at this
  rw [this]
  decide

/-! ## Round-trip theorem for the suite codec -/

/-- C9 (counterexample): for the test `⟨" a ", "b"⟩`, whose input and
answer are non-empty after trimming, parsing the serialization yields the
test with the *trimmed* fields, not the original test. -/
theorem parse_serialize_cex :
    parse_tests (serializeTest ⟨" a ", "b"⟩) = .ok [⟨"a", "b"⟩] ∧
      (⟨"a", "b"⟩ : Test) ≠ ⟨" a ", "b"⟩ := by decide

/-- C9 (amended): `parse(serialize(t)) = Ok [t]` for every test `t` whose
input and answer are non-empty, invariant under trimming, and free of the
`[` character (so that no spurious `[test]`/`[answer]` marker can occur
inside the serialized fields). -/
theorem parse_serialize_roundtrip (t : Test)
    (hti : trimChars t.input.data = t.input.data)
    (hta : trimChars t.answer.data = t.answer.data)
    (hni : t.input.data ≠ [])
    (hna : t.answer.data ≠ [])
    (hbi : ∀ c ∈ t.input.data, c ≠ '[')
    (hba : ∀ c ∈ t.answer.data, c ≠ '[') :
    parse_tests (serializeTest t) = .ok [t] := by
  have hien := ensureTrailingNewline_eq _ hti hni
  have haen := ensureTrailingNewline_eq _ hta hna
  have hdata : (serializeTest t).data =
      markerTestData ++ (markerInputData ++ ((t.input.data ++ ['\n']) ++
        (markerAnswerData ++ (t.answer.data ++ ['\n'])))) := by
    unfold serializeTest
    rw [show (⟨markerTestData ++ markerInputData ++
        ensureTrailingNewline t.input.data ++ markerAnswerData ++
        ensureTrailingNewline t.answer.data⟩ : String).data =
      markerTestData ++ markerInputData ++
        ensureTrailingNewline t.input.data ++ markerAnswerData ++
        ensureTrailingNewline t.answer.data from rfl]
    rw [hien, haen]
    simp [List.append_assoc]
  unfold parse_tests
  rw [hdata, splitOnSeq_marker_head markerTestData '[' "test]\n".data rfl _
    (containsSeq_mt_body t.input.data t.answer.data hbi hba)]
  have hBne : ∀ X : List Char, (markerInputData ++ X).isEmpty = false :=
    fun X => rfl
  have hfilter : ([([] : List Char),
      markerInputData ++ ((t.input.data ++ ['\n']) ++
        (markerAnswerData ++ (t.answer.data ++ ['\n'])))].filter
      (fun s => !s.isEmpty)) =
      [markerInputData ++ ((t.input.data ++ ['\n']) ++
        (markerAnswerData ++ (t.answer.data ++ ['\n'])))] := by
    simp [List.filter, hBne]
  rw [hfilter]
  have hrec : parseRecord (markerInputData ++ ((t.input.data ++ ['\n']) ++
      (markerAnswerData ++ (t.answer.data ++ ['\n'])))) = .ok t := by
    unfold parseRecord
    have hpre : markerInputData.isPrefixOf
        (markerInputData ++ ((t.input.data ++ ['\n']) ++
          (markerAnswerData ++ (t.answer.data ++ ['\n'])))) = true := by
      simp [ List.isPrefixOf_iff_prefix]
    rw [if_pos hpre, List.drop_left]
    have hbrk : breakOnSeq markerAnswerData
        ((t.input.data ++ ['\n']) ++
          (markerAnswerData ++ (t.answer.data ++ ['\n']))) =
        some (t.input.data ++ ['\n'], t.answer.data ++ ['\n']) := by
      have hclean : ∀ c ∈ t.input.data ++ ['\n'], c ≠ '[' := by
        intro c hc
        rcases List.mem_append.mp hc with h | h
        · exact hbi c h
        · simp at h; subst h; decide
      have hbase := breakOnSeq_at_marker markerAnswerData '[' "answer]\n".data
        rfl (t.answer.data ++ ['\n']) (t.input.data ++ ['\n']) hclean
      rw [List.append_assoc] at hbase
      exact hbase
    simp only [hbrk]
    rw [trimChars_append_newline _ hti, trimChars_append_newline _ hta]
  unfold parseRecords
  rw [hrec]
  rfl

/-- Witness for the amended C9 at `t = ⟨"a", "b"⟩`. -/
theorem parse_serialize_roundtrip_witness :
    parse_tests (serializeTest ⟨"a", "b"⟩) = .ok [⟨"a", "b"⟩] :=
  parse_serialize_roundtrip ⟨"a", "b"⟩ (by decide) (by decide) (by decide)
    (by decide) (by decide) (by decide)

end Checker
